import Mathlib

/-!
A Lean model of the functions in `src/build_tools/softinstall.py` together
with proofs about their behaviour.

Strings are modelled as `List Char`.  The Python regular expressions used by
the source are small enough to model directly:

* `TOOLCHAIN_FORMAT = r"20[1-2][0-9][ab]"` is a fixed-length pattern of five
  characters; `isTCLabel` decides whether a five-character string matches it.
* `re.findall(TOOLCHAIN_FORMAT, s)` scans left to right, taking each
  non-overlapping match; `findall` models this scan (a match always has
  length five, so the scan either consumes five characters or advances one).
* `re.match('^' + TOOLCHAIN_FORMAT + '$', u)` anchors the pattern at both
  ends, where Python's `$` matches at the end of the string and also just
  before a newline that ends the string; `matchTCExact` models this.
* `re.search(tc, s)` for the component identifiers in `SUBTOOLCHAINS` treats
  `tc` as a regex whose only metacharacter is `.` (any character except a
  newline); `research` models this.
* `re.sub('.eb$', '', name)` in `mk_job_name` removes one match of the
  pattern any-character-then-`eb` anchored at the end (again `$` also
  matches before a final newline); `stripEbSuffix` models this.

The Python functions return `None`, `False` or a string; `TCResult` is the
corresponding sum.  Calls to the logger are modelled, at the granularity of
the log level, by a list of `LogLevel` values returned next to the result.
External effects (process execution in `submit_job_script`, template
substitution, temp-file writing and removal in `submit_build_job`) are
modelled by explicit function parameters, and the actions a call performs
are returned next to its result.
-/

namespace SoftInstall

/-- Decides whether a string matches the whole pattern `20[1-2][0-9][ab]`
(the constant `TOOLCHAIN_FORMAT` of the source): exactly five characters
`2`, `0`, a character in `[1-2]`, a character in `[0-9]`, and `a` or `b`. -/
def isTCLabel (l : List Char) : Bool :=
  match l with
  | [a, b, c, d, e] =>
      a == '2' && b == '0' && (c == '1' || c == '2') &&
        (decide ('0' ≤ d) && decide (d ≤ '9')) && (e == 'a' || e == 'b')
  | _ => false

/-- Model of `re.findall(TOOLCHAIN_FORMAT, s)`: scan left to right; at each
position, if the next five characters match the pattern they form the next
match and the scan continues after them, otherwise the scan advances one
character.  Matches of this pattern are always five characters long. -/
def findall : List Char → List (List Char)
  | a :: b :: c :: d :: e :: rest =>
    if isTCLabel [a, b, c, d, e] then
      [a, b, c, d, e] :: findall rest
    else
      findall (b :: c :: d :: e :: rest)
  | _ => []

/-- All matches of the toolchain pattern occurring anywhere in `s`, listed
by start position: the five-character windows of `s` that satisfy
`isTCLabel`.  This is the reference notion of "substring matching the
pattern", defined independently of the scan performed by `findall`. -/
def allLabelOccurrences (s : List Char) : List (List Char) :=
  (s.tails.map (fun t => t.take 5)).filter isTCLabel

/-- The static table `SUBTOOLCHAINS` of the source, in definition order:
each toolchain generation with its component identifiers. -/
def SUBTOOLCHAINS : List (List Char × List (List Char)) :=
  [("2023a".toList, ["GCCcore-12.3.0".toList, "GCC-12.3.0".toList,
      "intel-compilers-2023.1.0".toList]),
   ("2022b".toList, ["GCCcore-12.2.0".toList, "GCC-12.2.0".toList,
      "intel-compilers-2022.2.1".toList]),
   ("2022a".toList, ["GCCcore-11.3.0".toList, "GCC-11.3.0".toList,
      "intel-compilers-2022.1.0".toList]),
   ("2021b".toList, ["GCCcore-11.2.0".toList, "GCC-11.2.0".toList,
      "intel-compilers-2021.4.0".toList]),
   ("2021a".toList, ["GCCcore-10.3.0".toList, "GCC-10.3.0".toList,
      "intel-compilers-2021.2.0".toList]),
   ("2020b".toList, ["GCCcore-10.2.0".toList, "GCC-10.2.0".toList,
      "iccifort-2020.4.304".toList]),
   ("2020a".toList, ["GCCcore-9.3.0".toList, "GCC-9.3.0".toList,
      "iccifort-2020.1.217".toList]),
   ("2019b".toList, ["GCCcore-8.3.0".toList, "GCC-8.3.0".toList,
      "iccifort-2019.5.281".toList]),
   ("2019a".toList, ["GCCcore-8.2.0".toList, "GCC-8.2.0-2.31.1".toList,
      "iccifort-2019.1.144-GCC-8.2.0-2.31.1".toList]),
   ("2018b".toList, ["GCCcore-7.3.0".toList, "GCC-7.3.0-2.30".toList,
      "iccifort-2018.3.222-GCC-7.3.0-2.30".toList])]

/-- Matches a regex pattern whose only metacharacter is `.` against the
start of a string: each pattern character must equal the corresponding
string character, except `.` which matches any character other than a
newline.  The component identifiers in `SUBTOOLCHAINS` contain only literal
characters and `.`. -/
def patMatchAt : List Char → List Char → Bool
  | [], _ => true
  | _ :: _, [] => false
  | p :: ps, c :: cs => (if p = '.' then c != '\n' else p == c) && patMatchAt ps cs

/-- Model of `re.search(pat, s)` for patterns whose only metacharacter is
`.`: the pattern matches at some position of `s`. -/
def research (pat : List Char) : List Char → Bool
  | [] => patMatchAt pat []
  | c :: cs => patMatchAt pat (c :: cs) || research pat cs

/-- Model of `re.match('^' + TOOLCHAIN_FORMAT + '$', u)`: the pattern must
match the whole string, except that Python's `$` also matches just before a
newline that ends the string, so a five-character label followed by one
final newline is accepted as well. -/
def matchTCExact (u : List Char) : Bool :=
  isTCLabel u ||
    (match u.reverse with
     | '\n' :: rest => isTCLabel rest.reverse
     | _ => false)

/-- Python truthiness of the `user_toolchain` argument, whose default is
`False` (modelled as `none`) and which may be a string (modelled as
`some`): `False` and the empty string are falsy. -/
def truthy : Option (List Char) → Bool
  | none => false
  | some s => !s.isEmpty

/-- The value returned by `set_toolchain_generation`: a toolchain
generation string, `False` (invalid user toolchain), or `None` (no
generation determined). -/
inductive TCResult where
  | label (s : List Char)
  | invalid
  | unknown
  deriving DecidableEq, Repr

/-- Log levels of the logger calls made by the modelled functions. -/
inductive LogLevel where
  | debug
  | error
  deriving DecidableEq, Repr

/-- Model of `set_toolchain_generation(easyconfig, user_toolchain=False)`,
returning the result together with the log records the call makes (at log
level granularity).  If `user_toolchain` is truthy it is validated against
the anchored pattern; on failure the function logs an error and returns
`False` early (skipping the final debug log).  Otherwise all matches of the
pattern in `easyconfig` are collected into a set; if that set has exactly
one element it is the result, and otherwise the first entry of
`SUBTOOLCHAINS` (in table order) one of whose component identifiers matches
`easyconfig` is used; if none matches the result stays `None`. -/
def set_toolchain_generation_run (easyconfig : List Char)
    (user_toolchain : Option (List Char)) : TCResult × List LogLevel :=
  if truthy user_toolchain then
    let u := user_toolchain.getD []
    if matchTCExact u then (TCResult.label u, [LogLevel.debug])
    else (TCResult.invalid, [LogLevel.error])
  else
    let found := (findall easyconfig).dedup
    if found.length = 1 then (TCResult.label found.headI, [LogLevel.debug])
    else
      match SUBTOOLCHAINS.find? (fun p => p.2.any (fun tc => research tc easyconfig)) with
      | some p => (TCResult.label p.1, [LogLevel.debug])
      | none => (TCResult.unknown, [LogLevel.debug])

/-- The value returned by `set_toolchain_generation`. -/
def set_toolchain_generation (easyconfig : List Char)
    (user_toolchain : Option (List Char)) : TCResult :=
  (set_toolchain_generation_run easyconfig user_toolchain).1

/-- Model of `os.path.basename` for POSIX paths: everything after the last
`/` (the whole string when it contains no `/`). -/
def basename (p : List Char) : List Char :=
  (p.reverse.takeWhile (fun c => c != '/')).reverse

/-- The reversed string ends with a match of `.eb$` at the very end of the
string: last character `b`, then `e`, then any character other than a
newline. -/
def matchesEnd : List Char → Bool
  | b :: e :: c :: _ => b == 'b' && e == 'e' && c != '\n'
  | _ => false

/-- The reversed string ends with a match of `.eb$` placed just before a
single final newline. -/
def matchesEndNl : List Char → Bool
  | nl :: b :: e :: c :: _ => nl == '\n' && b == 'b' && e == 'e' && c != '\n'
  | _ => false

/-- Model of `re.sub('.eb$', '', name)`: `.` matches any character except a
newline and `$` matches at the end of the string or just before a final
newline, so the pattern removes the final three characters when they are
any-character-then-`eb`, or the three characters before a single trailing
newline when they have that shape.  At most one match is possible (the two
cases exclude each other), so sub removes at most one occurrence. -/
def stripEbSuffix (name : List Char) : List Char :=
  let r := name.reverse
  if matchesEnd r then (r.drop 3).reverse
  else if matchesEndNl r then ('\n' :: r.drop 4).reverse
  else name

/-- Model of `mk_job_name(easyconfig, host_arch, target_arch=None)`: the
basename of `easyconfig` with the `.eb`-pattern suffix removed, then
`-host_arch` when `host_arch` is truthy, then `-target_arch` when
`target_arch` is truthy and differs from `host_arch`. -/
def mk_job_name (easyconfig : List Char) (host_arch : List Char)
    (target_arch : Option (List Char)) : List Char :=
  let job_name := stripEbSuffix (basename easyconfig)
  let job_name := if host_arch.isEmpty then job_name else job_name ++ '-' :: host_arch
  match target_arch with
  | none => job_name
  | some t => if t ≠ [] ∧ t ≠ host_arch then job_name ++ '-' :: t else job_name

/-- An external process execution performed by `submit_job_script`: either
`RunLoopStdout.run` (local execution) or `RunNoShell.run` (submission). -/
inductive Action where
  | runLoopStdout (cmd : List Char)
  | runNoShell (cmd : List Char)
  deriving DecidableEq, Repr

/-- The compound submission command built by `submit_job_script`: the three
parts joined with `" && "`, with `cluster`, `sub_options` and `job_file`
interpolated. -/
def submit_cmd (job_file sub_options cluster : List Char) : List Char :=
  "module --force purge && module load cluster/".toList ++ cluster ++
    " && sbatch --parsable ".toList ++ sub_options ++ " ".toList ++ job_file

/-- Model of `submit_job_script`: `runner` stands for the external process
runner; the call returns the `(exit code, output)` pair together with the
list of external executions it performed.  Dry run returns `(0, message)`
and performs none; local execution runs the job file with bash; otherwise
the compound command is submitted through `bash -c`. -/
def submit_job_script (runner : Action → Int × List Char) (job_file : List Char)
    (sub_options : List Char) (cluster : List Char)
    (local_exec : Bool) (dry_run : Bool) :
    (Int × List Char) × List Action :=
  let cmd := submit_cmd job_file sub_options cluster
  if dry_run then
    ((0, "(DRY RUN) Job submission command: ".toList ++ cmd), [])
  else if local_exec then
    let a := Action.runLoopStdout ("bash ".toList ++ job_file)
    (runner a, [a])
  else
    let a := Action.runNoShell ("bash -c \"".toList ++ cmd ++ "\"".toList)
    (runner a, [a])

/-- Outcome of `os.remove` on the temporary job file: success or an
`IOError`, the only exception the source catches. -/
inductive RemoveResult where
  | ok
  | ioError
  deriving DecidableEq, Repr

/-- Model of `submit_build_job(job_options, keep_job=False, *args, **kargs)`:
`substitute` stands for `BuildJob.substitute`, `write_tempfile` for the
temp-file writer and `remove` for `os.remove`.  The job options are passed
through unchanged (type `α`).  Returns the `(exit code, output)` pair of
the submission, the list of files whose removal was attempted, and the log
records (debug for the written job script, error when removal fails; the
failure is swallowed). -/
def submit_build_job {α : Type} (substitute : α → List Char)
    (write_tempfile : List Char → List Char)
    (remove : List Char → RemoveResult)
    (runner : Action → Int × List Char)
    (job_options : α) (keep_job : Bool)
    (sub_options cluster : List Char) (local_exec dry_run : Bool) :
    (Int × List Char) × List (List Char) × List LogLevel :=
  let job_script := substitute job_options
  let job_file := write_tempfile job_script
  let res := (submit_job_script runner job_file sub_options cluster local_exec dry_run).1
  if keep_job then (res, [], [LogLevel.debug])
  else
    match remove job_file with
    | RemoveResult.ok => (res, [job_file], [LogLevel.debug])
    | RemoveResult.ioError => (res, [job_file], [LogLevel.debug, LogLevel.error])

/-! ### Helper lemmas -/

/-- Characterisation of `isTCLabel` as a property of the five characters. -/
theorem isTCLabel_iff {l : List Char} :
    isTCLabel l = true ↔
      ∃ c d e, l = ['2', '0', c, d, e] ∧ (c = '1' ∨ c = '2') ∧
        ('0' ≤ d ∧ d ≤ '9') ∧ (e = 'a' ∨ e = 'b') := by
  rcases l with _ | ⟨a, _ | ⟨b, _ | ⟨c, _ | ⟨d, _ | ⟨e, _ | ⟨f, r⟩⟩⟩⟩⟩⟩
  · simp [isTCLabel]
  · simp [isTCLabel]
  · simp [isTCLabel]
  · simp [isTCLabel]
  · simp [isTCLabel]
  · constructor
    · intro h
      simp only [isTCLabel, Bool.and_eq_true, Bool.or_eq_true, beq_iff_eq,
        decide_eq_true_eq] at h
      obtain ⟨⟨⟨⟨ha, hb⟩, hc⟩, hd⟩, he⟩ := h
      subst ha; subst hb
      exact ⟨c, d, e, rfl, hc, hd, he⟩
    · rintro ⟨c', d', e', heq, hc, hd, he⟩
      simp only [List.cons.injEq, and_true] at heq
      obtain ⟨rfl, rfl, rfl, rfl, rfl⟩ := heq
      simp only [isTCLabel, Bool.and_eq_true, Bool.or_eq_true, beq_iff_eq,
        decide_eq_true_eq]
      exact ⟨⟨⟨⟨by trivial, by trivial⟩, hc⟩, hd⟩, he⟩
  · constructor
    · intro h
      simp [isTCLabel] at h
    · rintro ⟨c', d', e', heq, _⟩
      exact absurd heq (by simp)

/-- Every string produced by the `findall` scan matches the pattern and
occurs in the scanned string. -/
theorem findall_sound :
    ∀ (s : List Char), ∀ t ∈ findall s,
      isTCLabel t = true ∧ ∃ pre post, s = pre ++ t ++ post
  | a :: b :: c :: d :: e :: rest => by
    intro t ht
    rw [findall] at ht
    by_cases h5 : isTCLabel [a, b, c, d, e] = true
    · rw [if_pos h5] at ht
      rcases List.mem_cons.mp ht with rfl | ht'
      · exact ⟨h5, [], rest, by simp⟩
      · obtain ⟨hl, pre, post, hs⟩ := findall_sound rest t ht'
        exact ⟨hl, a :: b :: c :: d :: e :: pre, post, by simp [hs]⟩
    · rw [if_neg h5] at ht
      obtain ⟨hl, pre, post, hs⟩ := findall_sound (b :: c :: d :: e :: rest) t ht
      exact ⟨hl, a :: pre, post, by simp [hs]⟩
  | [] => by intro t ht; simp [findall] at ht
  | [a] => by intro t ht; simp [findall] at ht
  | [a, b] => by intro t ht; simp [findall] at ht
  | [a, b, c] => by intro t ht; simp [findall] at ht
  | [a, b, c, d] => by intro t ht; simp [findall] at ht

/-- Every occurrence of the pattern in the scanned string is produced by
the `findall` scan: matches of the pattern can never overlap (no proper
suffix of a match can start another match), so the scan misses none. -/
theorem findall_complete :
    ∀ (s t pre post : List Char), isTCLabel t = true →
      s = pre ++ t ++ post → t ∈ findall s
  | a :: b :: c :: d :: e :: rest, t, pre, post => by
    intro ht hs
    rw [findall]
    by_cases h5 : isTCLabel [a, b, c, d, e] = true
    · rw [if_pos h5]
      obtain ⟨ca, cd, ce, h5eq, hca, hcd, hce⟩ := isTCLabel_iff.mp h5
      simp only [List.cons.injEq, and_true] at h5eq
      obtain ⟨rfl, rfl, rfl, rfl, rfl⟩ := h5eq
      obtain ⟨cc, dd, ee, rfl, hcc, hdd, hee⟩ := isTCLabel_iff.mp ht
      rcases pre with _ | ⟨p1, _ | ⟨p2, _ | ⟨p3, _ | ⟨p4, _ | ⟨p5, pre'⟩⟩⟩⟩⟩
      · simp only [List.nil_append, List.cons_append, List.append_nil,
          List.cons.injEq] at hs
        obtain ⟨-, -, rfl, rfl, rfl, hrest⟩ := hs
        exact List.mem_cons_self _ _
      · simp at hs
      · simp at hs
        rcases hce with rfl | rfl <;> rcases hcc with rfl | rfl <;> simp_all
      · simp at hs
        rcases hce with rfl | rfl <;> simp_all
      · simp at hs
        rcases hce with rfl | rfl <;> simp_all
      · simp only [List.cons_append, List.cons.injEq] at hs
        obtain ⟨-, -, -, -, -, hrest⟩ := hs
        exact List.mem_cons_of_mem _
          (findall_complete rest _ pre' post ht (by rw [hrest]))
    · rw [if_neg h5]
      rcases pre with _ | ⟨p1, pre'⟩
      · exfalso
        obtain ⟨cc, dd, ee, rfl, hcc, hdd, hee⟩ := isTCLabel_iff.mp ht
        simp only [List.nil_append, List.cons_append, List.cons.injEq] at hs
        obtain ⟨rfl, rfl, rfl, rfl, rfl, -⟩ := hs
        exact h5 (isTCLabel_iff.mpr ⟨_, _, _, rfl, hcc, hdd, hee⟩)
      · simp only [List.cons_append, List.cons.injEq, List.append_assoc] at hs
        exact findall_complete (b :: c :: d :: e :: rest) t pre' post ht (by
          rw [hs.2]; simp)
  | [], t, pre, post => by
    intro ht hs
    obtain ⟨cc, dd, ee, rfl, -⟩ := isTCLabel_iff.mp ht
    apply congrArg List.length at hs
    simp at hs
    omega
  | [a], t, pre, post => by
    intro ht hs
    obtain ⟨cc, dd, ee, rfl, -⟩ := isTCLabel_iff.mp ht
    apply congrArg List.length at hs
    simp at hs
    omega
  | [a, b], t, pre, post => by
    intro ht hs
    obtain ⟨cc, dd, ee, rfl, -⟩ := isTCLabel_iff.mp ht
    apply congrArg List.length at hs
    simp at hs
    omega
  | [a, b, c], t, pre, post => by
    intro ht hs
    obtain ⟨cc, dd, ee, rfl, -⟩ := isTCLabel_iff.mp ht
    apply congrArg List.length at hs
    simp at hs
    omega
  | [a, b, c, d], t, pre, post => by
    intro ht hs
    obtain ⟨cc, dd, ee, rfl, -⟩ := isTCLabel_iff.mp ht
    apply congrArg List.length at hs
    simp at hs
    omega

/-- Membership in `allLabelOccurrences` is occurrence of a pattern match. -/
theorem mem_allLabelOccurrences {s t : List Char} :
    t ∈ allLabelOccurrences s ↔
      (∃ pre post, s = pre ++ t ++ post) ∧ isTCLabel t = true := by
  unfold allLabelOccurrences
  rw [List.mem_filter]
  constructor
  · rintro ⟨hm, ht⟩
    refine ⟨?_, ht⟩
    rcases List.mem_map.mp hm with ⟨u, hu, rfl⟩
    rcases (List.mem_tails _ _).mp hu with ⟨pre, rfl⟩
    refine ⟨pre, u.drop 5, ?_⟩
    conv_lhs => rw [← List.take_append_drop 5 u]
    rw [List.append_assoc]
  · rintro ⟨⟨pre, post, rfl⟩, ht⟩
    refine ⟨List.mem_map.mpr ⟨t ++ post, ?_, ?_⟩, ht⟩
    · exact (List.mem_tails _ _).mpr ⟨pre, by rw [List.append_assoc]⟩
    · obtain ⟨c, d, e, rfl, -⟩ := isTCLabel_iff.mp ht
      rfl

/-- The scan result and the occurrence list have the same members. -/
theorem mem_findall_iff {s t : List Char} :
    t ∈ findall s ↔ t ∈ allLabelOccurrences s := by
  rw [mem_allLabelOccurrences]
  constructor
  · intro ht
    obtain ⟨hl, pre, post, hs⟩ := findall_sound s t ht
    exact ⟨⟨pre, post, hs⟩, hl⟩
  · rintro ⟨⟨pre, post, hs⟩, hl⟩
    exact findall_complete s t pre post hl hs

/-- A non-empty list all of whose members are equal dedups to the
singleton. -/
theorem dedup_eq_singleton {α : Type} [DecidableEq α] {t : α} {l : List α}
    (hmem : t ∈ l) (hall : ∀ x ∈ l, x = t) : l.dedup = [t] := by
  induction l with
  | nil => cases hmem
  | cons x xs ih =>
    have hx : x = t := hall x (List.mem_cons_self x xs)
    subst hx
    by_cases hmemx : x ∈ xs
    · rw [List.dedup_cons_of_mem hmemx]
      exact ih hmemx (fun y hy => hall y (List.mem_cons_of_mem x hy))
    · have hnil : xs = [] := by
        cases xs with
        | nil => rfl
        | cons y ys =>
          have hy : y = x := hall y (by simp)
          exact absurd (by simp [hy] : x ∈ y :: ys) hmemx
      subst hnil
      simp

/-- A list has exactly one distinct member iff it is non-empty and all its
members are equal. -/
theorem dedup_length_one_iff {α : Type} [DecidableEq α] {l : List α} :
    l.dedup.length = 1 ↔ ∃ t, t ∈ l ∧ ∀ x ∈ l, x = t := by
  constructor
  · intro h
    obtain ⟨t, ht⟩ := List.length_eq_one.mp h
    refine ⟨t, ?_, ?_⟩
    · rw [← List.mem_dedup, ht]
      simp
    · intro x hx
      have hxd : x ∈ l.dedup := List.mem_dedup.mpr hx
      rw [ht] at hxd
      simpa using hxd
  · rintro ⟨t, ht, hall⟩
    rw [dedup_eq_singleton ht hall]
    rfl

/-- The number of distinct matches found by the scan is one exactly when
the number of distinct pattern occurrences is one. -/
theorem findall_dedup_length_one_iff {s : List Char} :
    (findall s).dedup.length = 1 ↔ (allLabelOccurrences s).dedup.length = 1 := by
  rw [dedup_length_one_iff, dedup_length_one_iff]
  constructor
  · rintro ⟨t, ht, hall⟩
    exact ⟨t, mem_findall_iff.mp ht, fun x hx => hall x (mem_findall_iff.mpr hx)⟩
  · rintro ⟨t, ht, hall⟩
    exact ⟨t, mem_findall_iff.mpr ht, fun x hx => hall x (mem_findall_iff.mp hx)⟩

/-! ### Claim theorems -/

/-- Claim C1: for every configuration string in which the set of distinct
substrings matching `20[1-2][0-9][ab]` has exactly one member (`t` occurs
and every occurrence equals `t`), `set_toolchain_generation` without a user
override returns exactly that substring. -/
theorem C1_unique_label (s t : List Char)
    (hmem : t ∈ allLabelOccurrences s)
    (huniq : ∀ x ∈ allLabelOccurrences s, x = t) :
    set_toolchain_generation s none = TCResult.label t := by
  have hdedup : (findall s).dedup = [t] :=
    dedup_eq_singleton (mem_findall_iff.mpr hmem)
      (fun x hx => huniq x (mem_findall_iff.mp hx))
  unfold set_toolchain_generation set_toolchain_generation_run
  simp [truthy, hdedup]

/-- Witness for C1 at a concrete input. -/
theorem C1_unique_label_witness :
    ("2022a".toList ∈ allLabelOccurrences "foo-2022a.eb".toList) ∧
    (∀ x ∈ allLabelOccurrences "foo-2022a.eb".toList, x = "2022a".toList) ∧
    set_toolchain_generation "foo-2022a.eb".toList none =
      TCResult.label "2022a".toList :=
  ⟨by decide, by decide,
    C1_unique_label "foo-2022a.eb".toList "2022a".toList (by decide) (by decide)⟩

/-- Claim C2: for every configuration string whose set of distinct pattern
matches has zero or more than one members, `set_toolchain_generation`
without a user override falls back to the sub-toolchain table: it returns
the label of the first entry of `SUBTOOLCHAINS` (in definition order) one
of whose component identifiers matches the configuration string, and `None`
(an absent result, the function is total and raises nothing) when no entry
matches. -/
theorem C2_fallback (s : List Char)
    (h : (allLabelOccurrences s).dedup.length ≠ 1) :
    set_toolchain_generation s none =
      match SUBTOOLCHAINS.find? (fun p => p.2.any (fun tc => research tc s)) with
      | some p => TCResult.label p.1
      | none => TCResult.unknown := by
  have hf : ¬ (findall s).dedup.length = 1 := fun hc =>
    h (findall_dedup_length_one_iff.mp hc)
  unfold set_toolchain_generation set_toolchain_generation_run
  simp only [truthy, Bool.false_eq_true, if_false, if_neg hf]
  cases SUBTOOLCHAINS.find? (fun p => p.2.any (fun tc => research tc s)) with
  | none => rfl
  | some p => rfl

/-- Witness for C2 at a concrete input containing no pattern match but a
sub-toolchain component (the configuration string from the spec's
sub-toolchain example). -/
theorem C2_fallback_witness :
    (allLabelOccurrences "GCCcore-11.3.0-foo".toList).dedup.length ≠ 1 ∧
    set_toolchain_generation "GCCcore-11.3.0-foo".toList none =
      (match SUBTOOLCHAINS.find?
          (fun p => p.2.any (fun tc => research tc "GCCcore-11.3.0-foo".toList)) with
        | some p => TCResult.label p.1
        | none => TCResult.unknown) :=
  ⟨by decide, C2_fallback "GCCcore-11.3.0-foo".toList (by decide)⟩

/-- Claim C3: a user override that fully matches the label pattern is
returned as-is, whatever the configuration string is. -/
theorem C3_valid_override (s u : List Char) (h : isTCLabel u = true) :
    set_toolchain_generation s (some u) = TCResult.label u := by
  obtain ⟨c, d, e, rfl, -⟩ := isTCLabel_iff.mp h
  unfold set_toolchain_generation set_toolchain_generation_run
  simp [truthy, matchTCExact, h]

/-- Witness for C3 at a concrete input. -/
theorem C3_valid_override_witness :
    isTCLabel "2022a".toList = true ∧
    set_toolchain_generation "path-to-2019b.eb".toList (some "2022a".toList) =
      TCResult.label "2022a".toList :=
  ⟨by decide, C3_valid_override "path-to-2019b.eb".toList "2022a".toList (by decide)⟩

/-- Counterexample to claim C4 as stated: the override `"2022a\n"` is
non-empty and does not fully match the five-character label pattern, yet
`set_toolchain_generation` returns it as the toolchain generation rather
than returning `False`, because Python's `$` in
`re.match('^20[1-2][0-9][ab]$', u)` also matches just before a newline
that ends the string. -/
theorem C4_counterexample :
    "2022a\n".toList ≠ [] ∧
    isTCLabel "2022a\n".toList = false ∧
    set_toolchain_generation "any-config".toList (some "2022a\n".toList) =
      TCResult.label "2022a\n".toList ∧
    TCResult.label "2022a\n".toList ≠ TCResult.invalid :=
  ⟨by decide, by decide, by decide, by decide⟩

/-- Claim C4 as amended: for every non-empty user override rejected by the
anchored pattern match (which accepts the five-character label shape and
also that shape followed by one final newline), `set_toolchain_generation`
returns `False` — a result distinct from the absent result `None` — and
logs an error, for every configuration string. -/
theorem C4_invalid_override (s u : List Char) (hne : u ≠ [])
    (h : matchTCExact u = false) :
    set_toolchain_generation_run s (some u) = (TCResult.invalid, [LogLevel.error]) ∧
    TCResult.invalid ≠ TCResult.unknown := by
  refine ⟨?_, by simp⟩
  have ht : truthy (some u) = true := by
    cases u with
    | nil => exact absurd rfl hne
    | cons c cs => rfl
  unfold set_toolchain_generation_run
  rw [ht]
  simp [h]

/-- Witness for C4 (amended) at the concrete override `"2022"` from the
spec. -/
theorem C4_invalid_override_witness :
    "2022".toList ≠ [] ∧ matchTCExact "2022".toList = false ∧
    set_toolchain_generation_run "any-config".toList (some "2022".toList) =
      (TCResult.invalid, [LogLevel.error]) :=
  ⟨by decide, by decide,
    (C4_invalid_override "any-config".toList "2022".toList (by decide) (by decide)).1⟩

/-- Claim C10: a falsy user override (the empty string, or the default
`False`) behaves exactly like no override: resolution proceeds from the
configuration string, and in particular the `False` invalid-override result
is never produced, even though the empty string does not match the label
pattern. -/
theorem C10_falsy_override (s : List Char) :
    set_toolchain_generation_run s (some []) = set_toolchain_generation_run s none ∧
    set_toolchain_generation s none ≠ TCResult.invalid ∧
    matchTCExact [] = false := by
  refine ⟨rfl, ?_, rfl⟩
  unfold set_toolchain_generation set_toolchain_generation_run
  simp only [truthy, Bool.false_eq_true, if_false]
  by_cases hl : ((findall s).dedup).length = 1
  · simp [hl]
  · simp only [if_neg hl]
    cases SUBTOOLCHAINS.find? (fun p => p.2.any (fun tc => research tc s)) with
    | none => simp
    | some p => simp

/-- Counterexample to claim C5 as stated: the configuration string
`"GCCcore-12X3Y0"` contains no component identifier of any table entry as
a literal substring (and no pattern match at all), yet the fallback
resolves it to `2023a`, because `re.search` treats the component
identifiers as regexes in which `.` matches any non-newline character, so
`GCCcore-12.3.0` matches `GCCcore-12X3Y0`. -/
theorem C5_counterexample :
    (allLabelOccurrences "GCCcore-12X3Y0".toList).dedup = [] ∧
    (∀ p ∈ SUBTOOLCHAINS, ∀ tc ∈ p.2, ¬ tc <:+: "GCCcore-12X3Y0".toList) ∧
    set_toolchain_generation "GCCcore-12X3Y0".toList none =
      TCResult.label "2023a".toList :=
  ⟨by decide, by decide, by decide⟩

/-- Claim C5 as amended: in the sub-toolchain fallback, a toolchain label
is returned only if at least one of that label's component identifiers,
interpreted as a regular expression in which `.` matches any single
non-newline character, matches somewhere in the configuration string; a
configuration string matched by no component pattern of any entry never
resolves via the fallback. -/
theorem C5_fallback_only_if (s t : List Char)
    (hfb : (allLabelOccurrences s).dedup.length ≠ 1)
    (h : set_toolchain_generation s none = TCResult.label t) :
    ∃ p ∈ SUBTOOLCHAINS, p.1 = t ∧ ∃ tc ∈ p.2, research tc s = true := by
  have hf : ¬ (findall s).dedup.length = 1 := fun hc =>
    hfb (findall_dedup_length_one_iff.mp hc)
  unfold set_toolchain_generation set_toolchain_generation_run at h
  simp only [truthy, Bool.false_eq_true, if_false, if_neg hf] at h
  cases hfind : SUBTOOLCHAINS.find? (fun p => p.2.any (fun tc => research tc s)) with
  | none =>
    rw [hfind] at h
    simp at h
  | some p =>
    rw [hfind] at h
    have hp1 : p.1 = t := by simpa using h
    have hmem := List.mem_of_find?_eq_some hfind
    have hpred := List.find?_some hfind
    simp only [List.any_eq_true] at hpred
    obtain ⟨tc, htc, hres⟩ := hpred
    exact ⟨p, hmem, hp1, tc, htc, hres⟩

/-- Witness for C5 (amended) at the concrete input from the spec's
sub-toolchain example. -/
theorem C5_fallback_only_if_witness :
    (allLabelOccurrences "GCCcore-11.3.0".toList).dedup.length ≠ 1 ∧
    set_toolchain_generation "GCCcore-11.3.0".toList none =
      TCResult.label "2022a".toList ∧
    ∃ p ∈ SUBTOOLCHAINS, p.1 = "2022a".toList ∧
      ∃ tc ∈ p.2, research tc "GCCcore-11.3.0".toList = true :=
  ⟨by decide, by decide,
    C5_fallback_only_if "GCCcore-11.3.0".toList "2022a".toList (by decide) (by decide)⟩

/-- Claim C6: `mk_job_name` returns the suffix-stripped basename, with
`-host_arch` appended exactly when `host_arch` is non-empty and
`-target_arch` appended exactly when `target_arch` is non-empty and differs
from `host_arch`; in particular the two examples from the spec hold. -/
theorem C6_mk_job_name :
    (∀ p h t, mk_job_name p h t =
      stripEbSuffix (basename p) ++
        (if h.isEmpty then [] else '-' :: h) ++
        (match t with
         | none => []
         | some ta => if ta ≠ [] ∧ ta ≠ h then '-' :: ta else [])) ∧
    mk_job_name "/path/to/foo-2022a.eb".toList "skylake".toList
        (some "skylake".toList) = "foo-2022a-skylake".toList ∧
    mk_job_name "/path/to/foo-2022a.eb".toList "skylake".toList
        (some "zen2".toList) = "foo-2022a-skylake-zen2".toList := by
  refine ⟨?_, by decide, by decide⟩
  intro p h t
  unfold mk_job_name
  rcases t with _ | ta
  · by_cases hh : h.isEmpty <;> simp [hh]
  · by_cases hh : h.isEmpty <;> by_cases hta : ta ≠ [] ∧ ta ≠ h <;>
      simp [hh, hta, List.append_assoc]

/-- Counterexample to claim C7 as stated: the basename `"foo-web"` does not
end in `".eb"` (its last three characters are `web`), yet `mk_job_name`
does not use it unchanged — the `w` of `web` is matched by the `.` of the
pattern `.eb$`, so the last three characters are removed. -/
theorem C7_counterexample :
    ("foo-web".toList.reverse.take 3).reverse ≠ ['.', 'e', 'b'] ∧
    mk_job_name "foo-web".toList [] none = "foo-".toList ∧
    "foo-".toList ≠ "foo-web".toList :=
  ⟨by decide, by decide, by decide⟩

/-- Claim C7 as amended: the basename suffix stripped by `mk_job_name` is
one match of the regex `.eb$` — the final three characters whenever they
are any non-newline character followed by `eb` (also when a single newline
follows them at the very end); a basename without such an ending is used
unchanged.  In particular a basename ending in the literal `".eb"` has
exactly those three characters removed, but e.g. `web` is stripped too. -/
theorem C7_strip_amended :
    (∀ pre c, c ≠ '\n' → stripEbSuffix (pre ++ [c, 'e', 'b']) = pre) ∧
    (∀ name, stripEbSuffix name ≠ name →
      ∃ pre c, c ≠ '\n' ∧
        (name = pre ++ [c, 'e', 'b'] ∨ name = pre ++ [c, 'e', 'b', '\n'])) ∧
    (∀ pre c, c ≠ '\n' → stripEbSuffix (pre ++ [c, 'e', 'b', '\n']) = pre ++ ['\n']) := by
  refine ⟨?_, ?_, ?_⟩
  · intro pre c hc
    simp [stripEbSuffix, matchesEnd, hc]
  · intro name hne
    by_cases h1 : matchesEnd name.reverse = true
    · rcases hshape : name.reverse with _ | ⟨b, _ | ⟨e, _ | ⟨c, rest⟩⟩⟩ <;>
        rw [hshape] at h1 <;> simp [matchesEnd] at h1
      obtain ⟨⟨hb, he⟩, hc⟩ := h1
      subst hb; subst he
      refine ⟨rest.reverse, c, hc, Or.inl ?_⟩
      have hrev := congrArg List.reverse hshape
      simpa using hrev
    · by_cases h2 : matchesEndNl name.reverse = true
      · rcases hshape : name.reverse with _ | ⟨nl, _ | ⟨b, _ | ⟨e, _ | ⟨c, rest⟩⟩⟩⟩ <;>
          rw [hshape] at h2 <;> simp [matchesEndNl] at h2
        obtain ⟨⟨⟨hnl, hb⟩, he⟩, hc⟩ := h2
        subst hnl; subst hb; subst he
        refine ⟨rest.reverse, c, hc, Or.inr ?_⟩
        have hrev := congrArg List.reverse hshape
        simpa using hrev
      · exact absurd (by simp [stripEbSuffix, h1, h2]) hne
  · intro pre c hc
    simp [stripEbSuffix, matchesEnd, matchesEndNl, hc]

/-- Witness for C7 (amended) at concrete inputs: the literal `.eb` suffix
is stripped, `xeb` also triggers the second conjunct, and the
before-newline case strips as described. -/
theorem C7_strip_amended_witness :
    stripEbSuffix ("foo".toList ++ ['.', 'e', 'b']) = "foo".toList ∧
    (∃ pre c, c ≠ '\n' ∧
      ("xeb".toList = pre ++ [c, 'e', 'b'] ∨
        "xeb".toList = pre ++ [c, 'e', 'b', '\n'])) ∧
    stripEbSuffix ("foo".toList ++ ['.', 'e', 'b', '\n']) = "foo".toList ++ ['\n'] :=
  ⟨C7_strip_amended.1 "foo".toList '.' (by decide),
    C7_strip_amended.2.1 "xeb".toList (by decide),
    C7_strip_amended.2.2 "foo".toList '.' (by decide)⟩

/-- Claim C8: whatever the process runner, submission options, cluster and
local-exec flag are, a dry run performs no external action and returns exit
code 0 with a message containing the literal compound command
`module --force purge && module load cluster/<cluster> && sbatch --parsable
<sub_options> <job_file>`. -/
theorem C8_dry_run (runner : Action → Int × List Char)
    (job_file sub_options cluster : List Char) (local_exec : Bool) :
    submit_job_script runner job_file sub_options cluster local_exec true =
      ((0, "(DRY RUN) Job submission command: ".toList ++
          submit_cmd job_file sub_options cluster), []) ∧
    submit_cmd job_file sub_options cluster <:+:
      "(DRY RUN) Job submission command: ".toList ++
        submit_cmd job_file sub_options cluster ∧
    submit_cmd job_file sub_options cluster =
      "module --force purge && module load cluster/".toList ++ cluster ++
        " && sbatch --parsable ".toList ++ sub_options ++ " ".toList ++ job_file := by
  refine ⟨rfl, ⟨"(DRY RUN) Job submission command: ".toList, [], by simp⟩, rfl⟩

/-- Claim C9: `submit_build_job` always returns exactly the pair produced
by the underlying submission — also when removal of the temporary job file
fails, since that failure is only logged — and when `keep_job` is set no
removal is attempted at all. -/
theorem C9_cleanup {α : Type} (substitute : α → List Char)
    (write_tempfile : List Char → List Char)
    (remove : List Char → RemoveResult)
    (runner : Action → Int × List Char)
    (job_options : α) (keep_job : Bool)
    (sub_options cluster : List Char) (local_exec dry_run : Bool) :
    (submit_build_job substitute write_tempfile remove runner job_options
        keep_job sub_options cluster local_exec dry_run).1 =
      (submit_job_script runner (write_tempfile (substitute job_options))
        sub_options cluster local_exec dry_run).1 ∧
    (keep_job = true →
      (submit_build_job substitute write_tempfile remove runner job_options
        keep_job sub_options cluster local_exec dry_run).2.1 = []) := by
  unfold submit_build_job
  constructor
  · cases keep_job
    · simp only [Bool.false_eq_true, if_false]
      cases remove (write_tempfile (substitute job_options)) <;> rfl
    · rfl
  · intro hk
    subst hk
    rfl

/-- Witness for C9: the first conjunct applied with a failing remover and
`keep_job` unset, the second with `keep_job` set. -/
theorem C9_cleanup_witness :
    (submit_build_job (fun _ : Unit => "script".toList) (fun _ => "/tmp/job".toList)
        (fun _ => RemoveResult.ioError) (fun _ => (1, "boom".toList)) () false
        [] "hydra".toList false false).1 =
      (submit_job_script (fun _ => (1, "boom".toList)) "/tmp/job".toList
        [] "hydra".toList false false).1 ∧
    (submit_build_job (fun _ : Unit => "script".toList) (fun _ => "/tmp/job".toList)
        (fun _ => RemoveResult.ioError) (fun _ => (1, "boom".toList)) () true
        [] "hydra".toList false false).2.1 = [] :=
  ⟨(C9_cleanup (fun _ : Unit => "script".toList) (fun _ => "/tmp/job".toList)
      (fun _ => RemoveResult.ioError) (fun _ => (1, "boom".toList)) () false
      [] "hydra".toList false false).1,
    (C9_cleanup (fun _ : Unit => "script".toList) (fun _ => "/tmp/job".toList)
      (fun _ => RemoveResult.ioError) (fun _ => (1, "boom".toList)) () true
      [] "hydra".toList false false).2 rfl⟩

end SoftInstall
